import Mathlib

/-!
Shallow embedding of the routines synchronization engine of `src/server.js`
(the `POST /routines/run` handler, lines 171-243, and its configuration,
lines 13-22), over epoch milliseconds as `Nat`.

The process-local civil calendar is modelled at UTC offset zero: a civil day
is a block of 86400000 ms, the local midnight of an instant is obtained by
truncating to that block, and the weekday of an instant is
`(ms / 86400000 + 4) % 7` (day zero of the epoch was a Thursday).  JavaScript
`NaN` (the result of `Number` on a non-numeric string) and the Invalid Date it
induces are encoded as `none`; every comparison against `none` is false, as
every JS comparison against `NaN` is.
-/

namespace BtyCalendar

/-- Milliseconds in one civil day (`86400000` in the source). -/
def msPerDay : Nat := 86400000

/-- Numeric value of a nonempty decimal-digit character list: every character
must be a digit, otherwise the value is `NaN` (`none`). -/
def digitsVal : List Char → Nat → Option Nat
  | [], acc => some acc
  | c :: rest, acc =>
    if c.isDigit then digitsVal rest (acc * 10 + (c.toNat - 48)) else none

/-- Models JavaScript `Number` on the string fragment the routines
configuration exercises, over the string's characters: the empty string is
`0`, a nonempty all-digit string is that decimal number, and anything else
(a non-numeric field such as `xx` or `abc`) is `NaN`, encoded as `none`.
(Signs, fractions and surrounding whitespace of the full `Number` grammar are
outside the shapes that the routines document exercises.) -/
def jsNumberOfChars : List Char → Option Nat
  | [] => some 0
  | l => digitsVal l 0

/-- `Number(s)` on a string value. -/
def jsToNumber (s : String) : Option Nat := jsNumberOfChars s.data

/-- An `undefined`-able string rendered inside a template literal: the string
itself when present, the text `undefined` when missing. -/
def jsShow : Option String → String
  | some s => s
  | none => "undefined"

/-- JS truthiness of an optional string (`undefined` and `""` are falsy). -/
def jsTruthyStr : Option String → Bool
  | some s => !(s == "")
  | none => false

/-- JS truthiness of an optional number (`undefined` and `0` are falsy). -/
def jsTruthyNum : Option Nat → Bool
  | some n => n != 0
  | none => false

/-- Models `Date.prototype.getDay` (day of week, `0` = Sunday) at UTC offset
zero. -/
def getDay (ms : Nat) : Nat := (ms / msPerDay + 4) % 7

/-- Local midnight of the day containing `ms`: the part of the instant that
`setHours(h, m, 0, 0)` keeps. -/
def dayStart (ms : Nat) : Nat := ms / msPerDay * msPerDay

/-- The table `weekdayMap = { Sun:0, Mon:1, Tue:2, Wed:3, Thu:4, Fri:5, Sat:6 }`
(server.js line 181); indexing it with an unknown name gives `undefined`. -/
def weekdayMap : String → Option Nat
  | "Sun" => some 0
  | "Mon" => some 1
  | "Tue" => some 2
  | "Wed" => some 3
  | "Thu" => some 4
  | "Fri" => some 5
  | "Sat" => some 6
  | _ => none

/-- `String.prototype.split(':')` over the string's characters: split at
every colon, keeping empty segments. -/
def splitOnColon : List Char → List (List Char)
  | [] => [[]]
  | c :: rest =>
    let r := splitOnColon rest
    if c = ':' then [] :: r
    else (c :: r.headD []) :: r.tail

/-- Models `(field || dflt).split(':').map(Number)` destructured as `[h, m]`
and then used as `h` and `m ?? 0` (server.js lines 189-190, 199): the default
replaces a missing or empty (falsy) field; the hour is the first component
through `Number`; the minute is `0` when there is no second component
(`undefined ?? 0`), and otherwise the second component through `Number`
(`?? 0` does not rescue `NaN`). -/
def splitClock (field : Option String) (dflt : String) : Option Nat × Option Nat :=
  let s := if jsTruthyStr field then field.getD "" else dflt
  let parts := splitOnColon s.data
  (jsNumberOfChars (parts.headD []),
    match parts[1]? with
    | none => some 0
    | some p => jsNumberOfChars p)

/-- Models `x.setHours(h, m, 0, 0)` on a date `x` lying in the day of `d`: a
`NaN` hour or minute produces an Invalid Date (`none`); otherwise the hours
and minutes are added to the day's midnight (values beyond the day roll over,
as in JS). -/
def setClock (d : Nat) : Option Nat → Option Nat → Option Nat
  | some h, some m => some (dayStart d + h * 3600000 + m * 60000)
  | _, _ => none

/-- The predicate `inHorizon = d => d >= now && d <= horizon` (server.js
line 182) on possibly-invalid dates: any comparison involving an Invalid Date
is false. -/
def inHorizon (now : Nat) (horizon : Option Nat) : Option Nat → Bool
  | some t =>
    decide (now ≤ t) &&
      (match horizon with
       | some h => decide (t ≤ h)
       | none => false)
  | none => false

/-- One decoded routine record, with the fields the handler reads.  `title` is
taken as always present (every routine names its event); every other field may
be absent. -/
structure RoutineItem where
  title : String
  days : Option (List String) := none
  start : Option String := none
  «end» : Option String := none
  weekday : Option String := none
  time : Option String := none
  durationMin : Option Nat := none
  note : Option String := none
  location : Option String := none
deriving DecidableEq

/-- One element of `toCreate` (`{ ...item, start, end }`), restricted to the
fields the creation loop reads (`ev.title`, `ev.note`, `ev.location`,
`ev.start`, `ev.end`).  `start` and `end` are possibly-invalid dates. -/
structure Candidate where
  title : String
  note : Option String
  location : Option String
  start : Option Nat
  «end» : Option Nat
deriving DecidableEq

/-- Number of iterations of the day loop
`for (let d = new Date(now); d <= horizon; d = new Date(d.getTime() + 86400000))`:
days `now + i * 86400000` while the bound holds; an invalid horizon compares
false immediately. -/
def dayCount (now : Nat) (horizon : Option Nat) : Nat :=
  match horizon with
  | some h => if now ≤ h then (h - now) / msPerDay + 1 else 0
  | none => 0

/-- The instants the day loop visits, in loop order. -/
def dayList (now : Nat) (horizon : Option Nat) : List Nat :=
  (List.range (dayCount now horizon)).map (fun i => now + i * msPerDay)

/-- One day of the multi-weekday branch (`if (item.days) { ... }`, server.js
lines 186-194): membership of the day's weekday in the mapped `days` list,
clock parsing with defaults `07:00`/`08:00`, and the one-sided `inHorizon`
check on `start` only. -/
def daysBranchDay (item : RoutineItem) (now : Nat) (horizon : Option Nat)
    (d : Nat) : Option Candidate :=
  if ((item.days.getD []).map weekdayMap).contains (some (getDay d)) then
    let s := splitClock item.start "07:00"
    let e := splitClock item.«end» "08:00"
    let start := setClock d s.1 s.2
    let «end» := setClock d e.1 e.2
    if inHorizon now horizon start then
      some { title := item.title, note := item.note, location := item.location,
             start := start, «end» := «end» }
    else none
  else none

/-- One day of the single-weekday / duration branch
(`else if (item.weekday && (item.time || item.durationMin))`, server.js lines
196-204): strict equality of the day's weekday with the mapped `weekday`,
clock parsing with default `17:00`, `end = start + (durationMin ?? 60)` minutes
(an invalid start propagates to the end), and the same one-sided check. -/
def weekdayBranchDay (item : RoutineItem) (now : Nat) (horizon : Option Nat)
    (d : Nat) : Option Candidate :=
  if weekdayMap (item.weekday.getD "") == some (getDay d) then
    let t := splitClock item.time "17:00"
    let start := setClock d t.1 t.2
    let «end» : Option Nat :=
      match start with
      | some s => some (s + item.durationMin.getD 60 * 60000)
      | none => none
    if inHorizon now horizon start then
      some { title := item.title, note := item.note, location := item.location,
             start := start, «end» := «end» }
    else none
  else none

/-- Expansion of one routine record: the branch chain
`if (item.days) ... else if (item.weekday && (item.time || item.durationMin)) ...`
over the day loop; a record matching neither guard contributes nothing. -/
def expandItem (now : Nat) (horizon : Option Nat) (item : RoutineItem) :
    List Candidate :=
  if item.days.isSome then
    (dayList now horizon).filterMap (daysBranchDay item now horizon)
  else if jsTruthyStr item.weekday &&
      (jsTruthyStr item.time || jsTruthyNum item.durationMin) then
    (dayList now horizon).filterMap (weekdayBranchDay item now horizon)
  else []

/-- The `toCreate` array: the outer `for (const item of items)` loop pushes
each record's candidates in input order (server.js lines 184-206). -/
def expandItems (now : Nat) (horizon : Option Nat) (items : List RoutineItem) :
    List Candidate :=
  items.foldl (fun acc item => acc ++ expandItem now horizon item) []

/-- The destructuring default `ROUTINES_LOOKAHEAD_DAYS = '14'` (server.js
line 21): it applies only when the environment variable is missing
(`undefined`), not when it holds a malformed value. -/
def effectiveLookahead (env : Option String) : String := env.getD "14"

/-- The horizon
`new Date(now.getTime() + Number(ROUTINES_LOOKAHEAD_DAYS) * 86400000)`
(server.js line 180): a non-numeric setting makes `Number` return `NaN` and
the horizon an Invalid Date (`none`). -/
def computeHorizon (now : Nat) (env : Option String) : Option Nat :=
  match jsToNumber (effectiveLookahead env) with
  | some n => some (now + n * msPerDay)
  | none => none

/-- Models `Date.prototype.toISOString` on a valid date: an injective
canonical serialization of the epoch-millisecond instant.  The engine only
ever compares these strings for byte equality and never parses them back, so
the exact character layout of the ISO-8601 text is irrelevant; the decimal
millisecond count is used here. -/
def toISOString (ms : Nat) : String := toString ms ++ "Z"

/-- An event summary as the external store's `events.list` returns it: the
fields the handler reads (`ev.summary` and `ev.start?.dateTime`), with the
start instant kept as epoch milliseconds when the event has a `dateTime`
start (the store reports, for an event it accepted, the instant it was
created with). -/
structure GEvent where
  summary : Option String
  startMs : Option Nat
deriving DecidableEq

/-- The seen-set key built from an existing event,
`` `${ev.summary}|${ev.start?.dateTime}` `` (server.js line 216): missing
fields print as `undefined`. -/
def seenKey (ev : GEvent) : String :=
  jsShow ev.summary ++ "|" ++
    (match ev.startMs with
     | some ms => toISOString ms
     | none => "undefined")

/-- The store's reply to one `events.list` call: one page of items and, when
the listing was truncated at the page size (`maxResults: 2500`), a
continuation token — which the handler never reads. -/
structure ListResponse where
  items : List GEvent
  nextPageToken : Option String
deriving DecidableEq

/-- The payload of one `events.insert` call issued by the creation loop
(server.js lines 224-234), with the start and end instants in epoch
milliseconds (serialized with `toISOString` on the wire). -/
structure CreateCall where
  summary : String
  description : String
  location : String
  startMs : Nat
  endMs : Nat
deriving DecidableEq

/-- One element of the result's `items`:
`{ id: data.id, title: ev.title, start: startISO }` (server.js line 235). -/
structure ResultItem where
  id : String
  title : String
  start : String
deriving DecidableEq

/-- The JSON body on success: `{ created: results.length, items: results }`
(server.js line 238). -/
structure RunOk where
  created : Nat
  items : List ResultItem
deriving DecidableEq

/-- The distinct ways the handler's `try` block can throw during the listing
and creation stages (all collapse to one HTTP 500 in the `catch`): the
existing-event listing fails; `toISOString` is called on an Invalid Date; an
individual `events.insert` call fails. -/
inductive RunError
  | listError
  | isoError
  | createError
deriving DecidableEq

/-- What one run does to the outside world and returns: every `events.insert`
call issued, in order; the subset of them that succeeded (the events that now
exist in the store), in order; and the response. -/
structure RunOutcome where
  calls : List CreateCall
  succeeded : List CreateCall
  result : Except RunError RunOk

/-- The creation loop over `toCreate` (server.js lines 218-236): `startISO`
and `endISO` are computed first — throwing on an Invalid Date even for a
candidate that would then be skipped —, the IdentityKey
`` `${ev.title}|${startISO}` `` is looked up in `seen`, and a skipped
candidate issues no call.  Nothing is ever added to `seen` inside the loop.
`create idx` is the store's answer to the `idx`-th insert call of the run
(`none` models a call that fails). -/
def createLoop (create : Nat → Option String) (seen : List String) :
    List Candidate → Nat → List CreateCall → List CreateCall → List ResultItem →
    RunOutcome
  | [], _, calls, okCalls, results =>
    ⟨calls, okCalls, .ok ⟨results.length, results⟩⟩
  | ev :: rest, idx, calls, okCalls, results =>
    match ev.start, ev.«end» with
    | some s, some e =>
      let startISO := toISOString s
      let key := ev.title ++ "|" ++ startISO
      if (seen.contains key) then
        createLoop create seen rest idx calls okCalls results
      else
        let call : CreateCall :=
          ⟨ev.title, ev.note.getD "", ev.location.getD "", s, e⟩
        match create idx with
        | some id =>
          createLoop create seen rest (idx + 1) (calls ++ [call])
            (okCalls ++ [call]) (results ++ [⟨id, ev.title, startISO⟩])
        | none => ⟨calls ++ [call], okCalls, .error .createError⟩
    | _, _ => ⟨calls, okCalls, .error .isoError⟩

/-- The world one run interacts with: the store's answer to the one
`events.list` call (`none` models a transport error) and to each
`events.insert` call, by call index. -/
structure RunBehavior where
  list : Option ListResponse
  create : Nat → Option String

/-- The `POST /routines/run` handler after the routines document has been
fetched and decoded into `items` (server.js lines 178-238): horizon
computation, expansion into `toCreate`, the listing request — whose
construction evaluates `horizon.toISOString()` and therefore throws first
when the horizon is invalid —, the `seen` set from the listed events, and the
creation loop. -/
def runRoutines (behavior : RunBehavior) (now : Nat) (env : Option String)
    (items : List RoutineItem) : RunOutcome :=
  let horizon := computeHorizon now env
  let toCreate := expandItems now horizon items
  match horizon with
  | none => ⟨[], [], .error .isoError⟩
  | some _ =>
    match behavior.list with
    | none => ⟨[], [], .error .listError⟩
    | some resp =>
      createLoop behavior.create (resp.items.map seenKey) toCreate 0 [] [] []

/-- The store-side filter of `events.list(timeMin: now, timeMax: horizon)`:
the events whose start instant lies in the closed window. -/
def storeFilter (store : List GEvent) (now : Nat) (h : Nat) : List GEvent :=
  store.filter fun ev =>
    match ev.startMs with
    | some ms => decide (now ≤ ms) && decide (ms ≤ h)
    | none => false

/-- The event a successful `events.insert` call leaves in the store: the
submitted summary and the submitted start instant. -/
def storedEvent (c : CreateCall) : GEvent := ⟨some c.summary, some c.startMs⟩

/-- One run against a store that answers the listing faithfully from its
contents: the outcome, and the store afterwards (the events the run
successfully inserted are appended). -/
def runOnStore (create : Nat → Option String) (now : Nat) (env : Option String)
    (items : List RoutineItem) (store : List GEvent) :
    RunOutcome × List GEvent :=
  let horizon := computeHorizon now env
  let listed : Option ListResponse :=
    match horizon with
    | some h => some ⟨storeFilter store now h, none⟩
    | none => none
  let outcome := runRoutines ⟨listed, create⟩ now env items
  (outcome, store ++ outcome.succeeded.map storedEvent)

/-- The IdentityKey of a candidate, as the creation loop computes it for a
candidate with a valid start. -/
def candidateKey (c : Candidate) : String :=
  c.title ++ "|" ++
    (match c.start with
     | some s => toISOString s
     | none => "undefined")

/-- The insert payload a candidate with a valid start and end produces. -/
def callOf (c : Candidate) : CreateCall :=
  ⟨c.title, c.note.getD "", c.location.getD "", c.start.getD 0, c.«end».getD 0⟩

/-!
Concrete fixtures used by the concrete parts of the theorems below.
`345600000` is the fifth midnight of the epoch, a Monday (at the modelled
offset); with a lookahead of one day the horizon is `432000000`, the Tuesday
midnight after it.
-/

/-- A multi-weekday routine: Mondays, 07:00 to 08:00. -/
def gymItem : RoutineItem :=
  { title := "Gym", days := some ["Mon"], start := some "07:00",
    «end» := some "08:00" }

/-- The insert payload `gymItem` produces on the Monday of the fixture
window: 07:00 to 08:00 on day four of the epoch. -/
def gymCall : CreateCall := ⟨"Gym", "", "", 370800000, 374400000⟩

/-- A single-weekday routine that sets neither `time` nor `durationMin`. -/
def bothOmitted : RoutineItem := { title := "Yoga", weekday := some "Mon" }

/-- A multi-weekday routine whose `end` clock is not numeric. -/
def badEndItem : RoutineItem :=
  { title := "Run", days := some ["Mon"], start := some "07:00",
    «end» := some "xx" }

/-- A record carrying both a `days` field and `weekday`/`time` fields. -/
def dualItem : RoutineItem :=
  { title := "Mix", days := some ["Wed"], weekday := some "Mon",
    time := some "00:30" }

/-- A single-weekday routine whose instance starts exactly at the horizon end
and runs one hour past it. -/
def lateItem : RoutineItem :=
  { title := "Late", weekday := some "Mon", time := some "00:00",
    durationMin := some 60 }

/-!
Helper lemmas about expansion.
-/

theorem inHorizon_eq_true {now : Nat} {horizon t' : Option Nat}
    (h : inHorizon now horizon t' = true) :
    ∃ t h', t' = some t ∧ horizon = some h' ∧ now ≤ t ∧ t ≤ h' := by
  cases t' with
  | none => simp [inHorizon] at h
  | some t =>
    cases horizon with
    | none => simp [inHorizon] at h
    | some hh =>
      simp only [inHorizon, Bool.and_eq_true, decide_eq_true_eq] at h
      exact ⟨t, hh, rfl, rfl, h.1, h.2⟩

theorem daysBranchDay_some {item : RoutineItem} {now d : Nat}
    {horizon : Option Nat} {c : Candidate}
    (h : daysBranchDay item now horizon d = some c) :
    ∃ hh mm, splitClock item.start "07:00" = (some hh, some mm)
      ∧ c.start = some (dayStart d + hh * 3600000 + mm * 60000)
      ∧ inHorizon now horizon c.start = true := by
  unfold daysBranchDay at h
  split at h
  · rcases hs : splitClock item.start "07:00" with ⟨o1, o2⟩
    rw [hs] at h
    cases o1 with
    | none => simp [setClock, inHorizon] at h
    | some hh =>
      cases o2 with
      | none => simp [setClock, inHorizon] at h
      | some mm =>
        simp only [setClock] at h
        split at h
        next hin =>
          obtain rfl := Option.some.inj h
          exact ⟨hh, mm, rfl, rfl, hin⟩
        next => exact absurd h (by simp)
  · exact absurd h (by simp)

theorem weekdayBranchDay_some {item : RoutineItem} {now d : Nat}
    {horizon : Option Nat} {c : Candidate}
    (h : weekdayBranchDay item now horizon d = some c) :
    ∃ hh mm, splitClock item.time "17:00" = (some hh, some mm)
      ∧ c.start = some (dayStart d + hh * 3600000 + mm * 60000)
      ∧ c.«end» = some (dayStart d + hh * 3600000 + mm * 60000
          + item.durationMin.getD 60 * 60000)
      ∧ c.title = item.title
      ∧ inHorizon now horizon c.start = true := by
  unfold weekdayBranchDay at h
  split at h
  · rcases hs : splitClock item.time "17:00" with ⟨o1, o2⟩
    rw [hs] at h
    cases o1 with
    | none => simp [setClock, inHorizon] at h
    | some hh =>
      cases o2 with
      | none => simp [setClock, inHorizon] at h
      | some mm =>
        simp only [setClock] at h
        split at h
        next hin =>
          obtain rfl := Option.some.inj h
          exact ⟨hh, mm, rfl, rfl, rfl, rfl, hin⟩
        next => exact absurd h (by simp)
  · exact absurd h (by simp)

theorem mem_expandItem_start {now : Nat} {horizon : Option Nat}
    {item : RoutineItem} {c : Candidate} (hc : c ∈ expandItem now horizon item) :
    ∃ s h, horizon = some h ∧ c.start = some s ∧ now ≤ s ∧ s ≤ h := by
  unfold expandItem at hc
  split at hc
  · rw [List.mem_filterMap] at hc
    obtain ⟨d, -, hd⟩ := hc
    obtain ⟨hh, mm, -, -, hin⟩ := daysBranchDay_some hd
    obtain ⟨t, h', hstart, hhor, h1, h2⟩ := inHorizon_eq_true hin
    exact ⟨t, h', hhor, hstart, h1, h2⟩
  · split at hc
    · rw [List.mem_filterMap] at hc
      obtain ⟨d, -, hd⟩ := hc
      obtain ⟨hh, mm, -, -, -, -, hin⟩ := weekdayBranchDay_some hd
      obtain ⟨t, h', hstart, hhor, h1, h2⟩ := inHorizon_eq_true hin
      exact ⟨t, h', hhor, hstart, h1, h2⟩
    · simp at hc

theorem expandItems_eq_flatMap (now : Nat) (horizon : Option Nat)
    (items : List RoutineItem) :
    expandItems now horizon items = items.flatMap (expandItem now horizon) := by
  have key : ∀ (l : List RoutineItem) (acc : List Candidate),
      l.foldl (fun acc item => acc ++ expandItem now horizon item) acc
        = acc ++ l.flatMap (expandItem now horizon) := by
    intro l
    induction l with
    | nil => intro acc; simp
    | cons x xs ih => intro acc; simp [ih, List.flatMap_cons]
  simpa [expandItems] using key items []

theorem mem_expandItems_start {now : Nat} {horizon : Option Nat}
    {items : List RoutineItem} {c : Candidate}
    (hc : c ∈ expandItems now horizon items) :
    ∃ s h, horizon = some h ∧ c.start = some s ∧ now ≤ s ∧ s ≤ h := by
  rw [expandItems_eq_flatMap, List.mem_flatMap] at hc
  obtain ⟨item, -, hm⟩ := hc
  exact mem_expandItem_start hm

theorem dayStart_add_mul (now i : Nat) :
    dayStart (now + i * msPerDay) = dayStart now + i * msPerDay := by
  unfold dayStart msPerDay
  omega

/-!
Helper lemmas about the creation loop: one lemma for each way one iteration
of the loop can go, then the inductive facts the claims need.
-/

theorem createLoop_cons_invalid_start (create : Nat → Option String)
    (seen : List String) (c : Candidate) (rest : List Candidate) (idx : Nat)
    (calls okCalls : List CreateCall) (results : List ResultItem)
    (hs : c.start = none) :
    createLoop create seen (c :: rest) idx calls okCalls results
      = ⟨calls, okCalls, .error .isoError⟩ := by
  conv_lhs => rw [createLoop.eq_def]
  dsimp only
  rw [hs]

theorem createLoop_cons_invalid_end (create : Nat → Option String)
    (seen : List String) (c : Candidate) (rest : List Candidate) (idx : Nat)
    (calls okCalls : List CreateCall) (results : List ResultItem) {s : Nat}
    (hs : c.start = some s) (he : c.«end» = none) :
    createLoop create seen (c :: rest) idx calls okCalls results
      = ⟨calls, okCalls, .error .isoError⟩ := by
  conv_lhs => rw [createLoop.eq_def]
  dsimp only
  rw [hs, he]

theorem createLoop_cons_skip (create : Nat → Option String)
    (seen : List String) (c : Candidate) (rest : List Candidate) (idx : Nat)
    (calls okCalls : List CreateCall) (results : List ResultItem) {s e : Nat}
    (hs : c.start = some s) (he : c.«end» = some e)
    (hseen : seen.contains (c.title ++ "|" ++ toISOString s) = true) :
    createLoop create seen (c :: rest) idx calls okCalls results
      = createLoop create seen rest idx calls okCalls results := by
  conv_lhs => rw [createLoop.eq_def]
  dsimp only
  rw [hs, he]
  dsimp only
  rw [if_pos hseen]

theorem createLoop_cons_create (create : Nat → Option String)
    (seen : List String) (c : Candidate) (rest : List Candidate) (idx : Nat)
    (calls okCalls : List CreateCall) (results : List ResultItem)
    {s e : Nat} {id : String} (hs : c.start = some s) (he : c.«end» = some e)
    (hseen : seen.contains (c.title ++ "|" ++ toISOString s) = false)
    (hci : create idx = some id) :
    createLoop create seen (c :: rest) idx calls okCalls results
      = createLoop create seen rest (idx + 1)
          (calls ++ [⟨c.title, c.note.getD "", c.location.getD "", s, e⟩])
          (okCalls ++ [⟨c.title, c.note.getD "", c.location.getD "", s, e⟩])
          (results ++ [⟨id, c.title, toISOString s⟩]) := by
  conv_lhs => rw [createLoop.eq_def]
  dsimp only
  rw [hs, he]
  dsimp only
  rw [if_neg (by rw [hseen]; simp)]
  rw [hci]

theorem createLoop_cons_fail (create : Nat → Option String)
    (seen : List String) (c : Candidate) (rest : List Candidate) (idx : Nat)
    (calls okCalls : List CreateCall) (results : List ResultItem)
    {s e : Nat} (hs : c.start = some s) (he : c.«end» = some e)
    (hseen : seen.contains (c.title ++ "|" ++ toISOString s) = false)
    (hci : create idx = none) :
    createLoop create seen (c :: rest) idx calls okCalls results
      = ⟨calls ++ [⟨c.title, c.note.getD "", c.location.getD "", s, e⟩],
         okCalls, .error .createError⟩ := by
  conv_lhs => rw [createLoop.eq_def]
  dsimp only
  rw [hs, he]
  dsimp only
  rw [if_neg (by rw [hseen]; simp)]
  rw [hci]

theorem createLoop_skip_all {create : Nat → Option String} {seen : List String} :
    ∀ (l : List Candidate) (idx : Nat) (calls okCalls : List CreateCall)
      (results : List ResultItem),
    (∀ c ∈ l, (∃ s, c.start = some s) ∧ (∃ e, c.«end» = some e)
      ∧ seen.contains (candidateKey c) = true) →
    createLoop create seen l idx calls okCalls results
      = ⟨calls, okCalls, .ok ⟨results.length, results⟩⟩ := by
  intro l
  induction l with
  | nil => intro idx calls okCalls results _; rfl
  | cons c rest ih =>
    intro idx calls okCalls results h
    obtain ⟨⟨s, hs⟩, ⟨e, he⟩, hseen⟩ := h c (List.mem_cons_self c rest)
    rw [show candidateKey c = c.title ++ "|" ++ toISOString s by
      simp [candidateKey, hs]] at hseen
    rw [createLoop_cons_skip create seen c rest idx calls okCalls results hs he
      hseen]
    exact ih idx calls okCalls results fun c' hc' =>
      h c' (List.mem_cons_of_mem _ hc')

theorem createLoop_nil_seen {create : Nat → Option String} :
    ∀ (l : List Candidate) (idx : Nat) (calls okCalls : List CreateCall)
      (results : List ResultItem) (r : RunOk),
    (createLoop create [] l idx calls okCalls results).result = .ok r →
    (createLoop create [] l idx calls okCalls results).succeeded
        = okCalls ++ l.map callOf
      ∧ ∀ c ∈ l, (∃ s, c.start = some s) ∧ (∃ e, c.«end» = some e) := by
  intro l
  induction l with
  | nil => intro idx calls okCalls results r _; simp [createLoop]
  | cons c rest ih =>
    intro idx calls okCalls results r h
    rcases hs : c.start with _ | s
    · rw [createLoop_cons_invalid_start create [] c rest idx calls okCalls
        results hs] at h
      simp at h
    rcases he : c.«end» with _ | e
    · rw [createLoop_cons_invalid_end create [] c rest idx calls okCalls
        results hs he] at h
      simp at h
    have hcall : callOf c = ⟨c.title, c.note.getD "", c.location.getD "", s, e⟩ := by
      simp [callOf, hs, he]
    rcases hci : create idx with _ | id
    · rw [createLoop_cons_fail create [] c rest idx calls okCalls results hs he
        rfl hci] at h
      simp at h
    · rw [createLoop_cons_create create [] c rest idx calls okCalls results hs
        he rfl hci] at h ⊢
      obtain ⟨hsucc, hval⟩ := ih (idx + 1) _ _ _ r h
      constructor
      · rw [hsucc]
        simp [hcall]
      · intro c' hc'
        rcases List.mem_cons.mp hc' with rfl | hc'
        · exact ⟨⟨s, hs⟩, ⟨e, he⟩⟩
        · exact hval c' hc'

theorem createLoop_calls_len {create : Nat → Option String} {seen : List String} :
    ∀ (l : List Candidate) (idx : Nat) (calls okCalls : List CreateCall)
      (results : List ResultItem),
    (createLoop create seen l idx calls okCalls results).calls.length
      ≤ calls.length + l.length := by
  intro l
  induction l with
  | nil => intro idx calls okCalls results; simp [createLoop]
  | cons c rest ih =>
    intro idx calls okCalls results
    rcases hs : c.start with _ | s
    · rw [createLoop_cons_invalid_start create seen c rest idx calls okCalls
        results hs]
      simp
    rcases he : c.«end» with _ | e
    · rw [createLoop_cons_invalid_end create seen c rest idx calls okCalls
        results hs he]
      simp
    rcases hseen : seen.contains (c.title ++ "|" ++ toISOString s) with _ | _
    · rcases hci : create idx with _ | id
      · rw [createLoop_cons_fail create seen c rest idx calls okCalls results
          hs he hseen hci]
        simp only [List.length_cons, List.length_append, List.length_nil]
        omega
      · rw [createLoop_cons_create create seen c rest idx calls okCalls results
          hs he hseen hci]
        have := ih (idx + 1)
          (calls ++ [⟨c.title, c.note.getD "", c.location.getD "", s, e⟩])
          (okCalls ++ [⟨c.title, c.note.getD "", c.location.getD "", s, e⟩])
          (results ++ [⟨id, c.title, toISOString s⟩])
        simp only [List.length_append, List.length_cons, List.length_nil]
          at this ⊢
        omega
    · rw [createLoop_cons_skip create seen c rest idx calls okCalls results hs
        he hseen]
      have := ih idx calls okCalls results
      simp only [List.length_cons]
      omega

theorem createLoop_error_split {create : Nat → Option String}
    {seen : List String} :
    ∀ (l : List Candidate) (idx : Nat) (acc : List CreateCall)
      (results : List ResultItem),
    (createLoop create seen l idx acc acc results).result = .error .createError →
    ∃ cc, (createLoop create seen l idx acc acc results).calls
        = (createLoop create seen l idx acc acc results).succeeded ++ [cc] := by
  intro l
  induction l with
  | nil => intro idx acc results h; simp [createLoop] at h
  | cons c rest ih =>
    intro idx acc results h
    rcases hs : c.start with _ | s
    · rw [createLoop_cons_invalid_start create seen c rest idx acc acc results
        hs] at h
      simp at h
    rcases he : c.«end» with _ | e
    · rw [createLoop_cons_invalid_end create seen c rest idx acc acc results hs
        he] at h
      simp at h
    rcases hseen : seen.contains (c.title ++ "|" ++ toISOString s) with _ | _
    · rcases hci : create idx with _ | id
      · rw [createLoop_cons_fail create seen c rest idx acc acc results hs he
          hseen hci]
        exact ⟨⟨c.title, c.note.getD "", c.location.getD "", s, e⟩, rfl⟩
      · rw [createLoop_cons_create create seen c rest idx acc acc results hs he
          hseen hci] at h ⊢
        exact ih (idx + 1) _ _ h
    · rw [createLoop_cons_skip create seen c rest idx acc acc results hs he
        hseen] at h ⊢
      exact ih idx acc results h

theorem createLoop_ok_align {create : Nat → Option String} {seen : List String} :
    ∀ (l : List Candidate) (idx : Nat) (calls okCalls : List CreateCall)
      (results : List ResultItem) (r : RunOk),
    (createLoop create seen l idx calls okCalls results).result = .ok r →
    results.map (fun it => (it.title, it.start))
        = calls.map (fun cc => (cc.summary, toISOString cc.startMs)) →
    r.items.map (fun it => (it.title, it.start))
      = (createLoop create seen l idx calls okCalls results).calls.map
          (fun cc => (cc.summary, toISOString cc.startMs)) := by
  intro l
  induction l with
  | nil =>
    intro idx calls okCalls results r h hacc
    simp only [createLoop] at h ⊢
    obtain rfl : (⟨results.length, results⟩ : RunOk) = r := by
      simpa using h
    exact hacc
  | cons c rest ih =>
    intro idx calls okCalls results r h hacc
    rcases hs : c.start with _ | s
    · rw [createLoop_cons_invalid_start create seen c rest idx calls okCalls
        results hs] at h
      simp at h
    rcases he : c.«end» with _ | e
    · rw [createLoop_cons_invalid_end create seen c rest idx calls okCalls
        results hs he] at h
      simp at h
    rcases hseen : seen.contains (c.title ++ "|" ++ toISOString s) with _ | _
    · rcases hci : create idx with _ | id
      · rw [createLoop_cons_fail create seen c rest idx calls okCalls results
          hs he hseen hci] at h
        simp at h
      · rw [createLoop_cons_create create seen c rest idx calls okCalls results
          hs he hseen hci] at h ⊢
        refine ih (idx + 1) _ _ _ r h ?_
        simp [hacc]
    · rw [createLoop_cons_skip create seen c rest idx calls okCalls results hs
        he hseen] at h ⊢
      exact ih idx calls okCalls results r h hacc

theorem createLoop_calls_not_seen {create : Nat → Option String}
    {seen : List String} :
    ∀ (l : List Candidate) (idx : Nat) (calls okCalls : List CreateCall)
      (results : List ResultItem),
    (∀ cc ∈ calls, (cc.summary ++ "|" ++ toISOString cc.startMs) ∉ seen) →
    ∀ cc ∈ (createLoop create seen l idx calls okCalls results).calls,
      (cc.summary ++ "|" ++ toISOString cc.startMs) ∉ seen := by
  intro l
  induction l with
  | nil => intro idx calls okCalls results hacc; simpa [createLoop] using hacc
  | cons c rest ih =>
    intro idx calls okCalls results hacc
    rcases hs : c.start with _ | s
    · rw [createLoop_cons_invalid_start create seen c rest idx calls okCalls
        results hs]
      exact hacc
    rcases he : c.«end» with _ | e
    · rw [createLoop_cons_invalid_end create seen c rest idx calls okCalls
        results hs he]
      exact hacc
    rcases hseen : seen.contains (c.title ++ "|" ++ toISOString s) with _ | _
    · have hext : ∀ cc ∈ calls ++ [(⟨c.title, c.note.getD "",
          c.location.getD "", s, e⟩ : CreateCall)],
          (cc.summary ++ "|" ++ toISOString cc.startMs) ∉ seen := by
        intro cc hcc
        rcases List.mem_append.mp hcc with hcc | hcc
        · exact hacc cc hcc
        · rcases List.mem_singleton.mp hcc with rfl
          intro hmem
          rw [show seen.contains (c.title ++ "|" ++ toISOString s) = true by
            simpa using hmem] at hseen
          exact Bool.true_eq_false.mp hseen
      rcases hci : create idx with _ | id
      · rw [createLoop_cons_fail create seen c rest idx calls okCalls results
          hs he hseen hci]
        exact hext
      · rw [createLoop_cons_create create seen c rest idx calls okCalls results
          hs he hseen hci]
        exact ih (idx + 1) _ _ _ hext
    · rw [createLoop_cons_skip create seen c rest idx calls okCalls results hs
        he hseen]
      exact ih idx calls okCalls results hacc

/-!
Branch-level lemmas about expansion.
-/

theorem expandItem_eq_days {now : Nat} {horizon : Option Nat}
    {item : RoutineItem} (hd : item.days.isSome = true) :
    expandItem now horizon item
      = (dayList now horizon).filterMap (daysBranchDay item now horizon) := by
  unfold expandItem
  rw [if_pos hd]

theorem expandItem_eq_weekday {now : Nat} {horizon : Option Nat}
    {item : RoutineItem} (hd : item.days = none)
    (hg : (jsTruthyStr item.weekday
        && (jsTruthyStr item.time || jsTruthyNum item.durationMin)) = true) :
    expandItem now horizon item
      = (dayList now horizon).filterMap (weekdayBranchDay item now horizon) := by
  unfold expandItem
  rw [hd]
  rw [if_neg (by simp), if_pos hg]

theorem expandItem_eq_nil {now : Nat} {horizon : Option Nat}
    {item : RoutineItem} (hd : item.days = none)
    (hg : (jsTruthyStr item.weekday
        && (jsTruthyStr item.time || jsTruthyNum item.durationMin)) = false) :
    expandItem now horizon item = [] := by
  unfold expandItem
  rw [hd]
  rw [if_neg (by simp), if_neg (by simp [hg])]

theorem daysBranchDay_clock_invalid {item : RoutineItem} {now d : Nat}
    {horizon : Option Nat}
    (hbad : (splitClock item.start "07:00").1 = none
      ∨ (splitClock item.start "07:00").2 = none) :
    daysBranchDay item now horizon d = none := by
  unfold daysBranchDay
  split
  · rcases hs : splitClock item.start "07:00" with ⟨o1, o2⟩
    rcases hbad with h | h
    · obtain rfl : o1 = none := by rw [hs] at h; exact h
      cases o2 <;> simp [setClock, inHorizon]
    · obtain rfl : o2 = none := by rw [hs] at h; exact h
      cases o1 <;> simp [setClock, inHorizon]
  · rfl

theorem weekdayBranchDay_clock_invalid {item : RoutineItem} {now d : Nat}
    {horizon : Option Nat}
    (hbad : (splitClock item.time "17:00").1 = none
      ∨ (splitClock item.time "17:00").2 = none) :
    weekdayBranchDay item now horizon d = none := by
  unfold weekdayBranchDay
  split
  · rcases hs : splitClock item.time "17:00" with ⟨o1, o2⟩
    rcases hbad with h | h
    · obtain rfl : o1 = none := by rw [hs] at h; exact h
      cases o2 <;> simp [setClock, inHorizon]
    · obtain rfl : o2 = none := by rw [hs] at h; exact h
      cases o1 <;> simp [setClock, inHorizon]
  · rfl

theorem daysBranchDay_empty_days {item : RoutineItem} {now d : Nat}
    {horizon : Option Nat} (hd : item.days = some ([] : List String)) :
    daysBranchDay item now horizon d = none := by
  unfold daysBranchDay
  rw [hd]
  rfl

theorem mem_expandItem_weekday {now : Nat} {horizon : Option Nat}
    {item : RoutineItem} {c : Candidate} (hd : item.days = none)
    (hc : c ∈ expandItem now horizon item) :
    ∃ d hh mm, splitClock item.time "17:00" = (some hh, some mm)
      ∧ c.start = some (dayStart d + hh * 3600000 + mm * 60000)
      ∧ c.«end» = some (dayStart d + hh * 3600000 + mm * 60000
          + item.durationMin.getD 60 * 60000) := by
  rcases hg : (jsTruthyStr item.weekday
      && (jsTruthyStr item.time || jsTruthyNum item.durationMin)) with _ | _
  · rw [expandItem_eq_nil hd hg] at hc
    simp at hc
  · rw [expandItem_eq_weekday hd hg] at hc
    rw [List.mem_filterMap] at hc
    obtain ⟨d, -, hdm⟩ := hc
    obtain ⟨hh, mm, hclock, hstart, hend, -, -⟩ := weekdayBranchDay_some hdm
    exact ⟨d, hh, mm, hclock, hstart, hend⟩

/-!
Ordering lemmas: the starts produced for one record ascend strictly along the
day loop.
-/

theorem pairwise_start_filterMap {now K : Nat} {horizon : Option Nat}
    {f : Nat → Option Candidate}
    (hf : ∀ d c, f d = some c → c.start = some (dayStart d + K)) :
    List.Pairwise (fun a b : Candidate => a.start.getD 0 < b.start.getD 0)
      ((dayList now horizon).filterMap f) := by
  rw [List.pairwise_filterMap]
  unfold dayList
  rw [List.pairwise_map]
  refine (List.pairwise_lt_range _).imp ?_
  intro i j hij c hc c' hc'
  rw [Option.mem_def] at hc hc'
  have e1 : c.start.getD 0 = dayStart (now + i * msPerDay) + K := by
    rw [hf _ _ hc]; rfl
  have e2 : c'.start.getD 0 = dayStart (now + j * msPerDay) + K := by
    rw [hf _ _ hc']; rfl
  rw [e1, e2, dayStart_add_mul, dayStart_add_mul]
  have hm : i * msPerDay < j * msPerDay :=
    mul_lt_mul_of_pos_right hij (by norm_num [msPerDay])
  exact Nat.add_lt_add_right (Nat.add_lt_add_left hm _) K

theorem daysBranchDay_start_shape {item : RoutineItem} {now : Nat}
    {horizon : Option Nat} {hh mm : Nat}
    (hclock : splitClock item.start "07:00" = (some hh, some mm)) :
    ∀ d c, daysBranchDay item now horizon d = some c →
      c.start = some (dayStart d + (hh * 3600000 + mm * 60000)) := by
  intro d c h
  obtain ⟨hh', mm', hclock', hstart, -⟩ := daysBranchDay_some h
  rw [hclock] at hclock'
  obtain ⟨rfl, rfl⟩ : hh = hh' ∧ mm = mm' := by
    simpa using hclock'
  rw [hstart, Nat.add_assoc]

theorem weekdayBranchDay_start_shape {item : RoutineItem} {now : Nat}
    {horizon : Option Nat} {hh mm : Nat}
    (hclock : splitClock item.time "17:00" = (some hh, some mm)) :
    ∀ d c, weekdayBranchDay item now horizon d = some c →
      c.start = some (dayStart d + (hh * 3600000 + mm * 60000)) := by
  intro d c h
  obtain ⟨hh', mm', hclock', hstart, -, -, -⟩ := weekdayBranchDay_some h
  rw [hclock] at hclock'
  obtain ⟨rfl, rfl⟩ : hh = hh' ∧ mm = mm' := by
    simpa using hclock'
  rw [hstart, Nat.add_assoc]

theorem expandItem_pairwise (now : Nat) (horizon : Option Nat)
    (item : RoutineItem) :
    List.Pairwise (fun a b : Candidate => a.start.getD 0 < b.start.getD 0)
      (expandItem now horizon item) := by
  unfold expandItem
  split
  · rcases hs : splitClock item.start "07:00" with ⟨o1, o2⟩
    rcases o1 with _ | hh
    · rw [List.filterMap_eq_nil_iff.mpr fun d _ =>
        daysBranchDay_clock_invalid (Or.inl (by rw [hs]))]
      exact List.Pairwise.nil
    rcases o2 with _ | mm
    · rw [List.filterMap_eq_nil_iff.mpr fun d _ =>
        daysBranchDay_clock_invalid (Or.inr (by rw [hs]))]
      exact List.Pairwise.nil
    exact pairwise_start_filterMap (daysBranchDay_start_shape hs)
  · split
    · rcases hs : splitClock item.time "17:00" with ⟨o1, o2⟩
      rcases o1 with _ | hh
      · rw [List.filterMap_eq_nil_iff.mpr fun d _ =>
          weekdayBranchDay_clock_invalid (Or.inl (by rw [hs]))]
        exact List.Pairwise.nil
      rcases o2 with _ | mm
      · rw [List.filterMap_eq_nil_iff.mpr fun d _ =>
          weekdayBranchDay_clock_invalid (Or.inr (by rw [hs]))]
        exact List.Pairwise.nil
      exact pairwise_start_filterMap (weekdayBranchDay_start_shape hs)
    · exact List.Pairwise.nil

/-!
Unfolding lemmas for the run.
-/

theorem runRoutines_eq_createLoop {B : RunBehavior} {now : Nat}
    {env : Option String} {items : List RoutineItem} {h : Nat}
    {resp : ListResponse} (hh : computeHorizon now env = some h)
    (hl : B.list = some resp) :
    runRoutines B now env items
      = createLoop B.create (resp.items.map seenKey)
          (expandItems now (some h) items) 0 [] [] [] := by
  simp [runRoutines, hh, hl]

theorem runRoutines_horizon_invalid {B : RunBehavior} {now : Nat}
    {env : Option String} {items : List RoutineItem}
    (hh : computeHorizon now env = none) :
    runRoutines B now env items = ⟨[], [], .error .isoError⟩ := by
  simp [runRoutines, hh]

theorem runRoutines_list_failed {B : RunBehavior} {now : Nat}
    {env : Option String} {items : List RoutineItem} {h : Nat}
    (hh : computeHorizon now env = some h) (hl : B.list = none) :
    runRoutines B now env items = ⟨[], [], .error .listError⟩ := by
  simp [runRoutines, hh, hl]

theorem runOnStore_eq {create : Nat → Option String} {now : Nat}
    {env : Option String} {items : List RoutineItem} {store : List GEvent}
    {h : Nat} (hh : computeHorizon now env = some h) :
    runOnStore create now env items store
      = (runRoutines ⟨some ⟨storeFilter store now h, none⟩, create⟩ now env items,
         store ++ (runRoutines ⟨some ⟨storeFilter store now h, none⟩, create⟩
           now env items).succeeded.map storedEvent) := by
  simp [runOnStore, hh]

theorem mem_storeFilter {store : List GEvent} {now h : Nat} {ev : GEvent}
    {s : Nat} (hms : ev.startMs = some s) (h1 : now ≤ s) (h2 : s ≤ h)
    (hmem : ev ∈ store) : ev ∈ storeFilter store now h := by
  unfold storeFilter
  refine List.mem_filter.mpr ⟨hmem, ?_⟩
  rw [hms]
  simp [h1, h2]

theorem runOnStore_horizon_invalid {create : Nat → Option String} {now : Nat}
    {env : Option String} {items : List RoutineItem} {store : List GEvent}
    (hh : computeHorizon now env = none) :
    runOnStore create now env items store
      = (⟨[], [], .error .isoError⟩, store) := by
  simp [runOnStore, runRoutines, hh]

/-!
Claim theorems.
-/

/-- C1 (counterexample): the creation loop of `POST /routines/run` never adds
a created instance's IdentityKey to the `seen` set, so two candidates with
byte-equal IdentityKey in one run (here: two identical `Gym` specs over a
one-day horizon starting on a Monday midnight) both trigger a creation call —
the run issues two creation calls with the same IdentityKey, refuting the
at-most-one-creation-per-key guarantee. -/
theorem c1_counterexample :
    (runRoutines ⟨some ⟨[], none⟩, fun _ => some "id"⟩ 345600000 (some "1")
        [gymItem, gymItem]).calls.map
          (fun cc => cc.summary ++ "|" ++ toISOString cc.startMs)
      = [gymCall.summary ++ "|" ++ toISOString gymCall.startMs,
         gymCall.summary ++ "|" ++ toISOString gymCall.startMs]
    ∧ 2 ≤ (runRoutines ⟨some ⟨[], none⟩, fun _ => some "id"⟩ 345600000
        (some "1") [gymItem, gymItem]).calls.length :=
  ⟨by decide, by decide⟩

/-- C1 (amended): the in-memory `seen` set is built once from the listed
existing events and never extended during the creation loop, so the dedup
guarantee that does hold is: every issued creation call's IdentityKey is
absent from the pre-existing key set.  Two same-run candidates with byte-equal
keys are both created (see the counterexample). -/
theorem c1_dedup_only_against_listing (B : RunBehavior) (now : Nat)
    (env : Option String) (items : List RoutineItem) (resp : ListResponse)
    (hl : B.list = some resp) (cc : CreateCall)
    (hcc : cc ∈ (runRoutines B now env items).calls) :
    (cc.summary ++ "|" ++ toISOString cc.startMs) ∉ resp.items.map seenKey := by
  rcases hh : computeHorizon now env with _ | h
  · rw [runRoutines_horizon_invalid hh] at hcc
    simp at hcc
  · rw [runRoutines_eq_createLoop hh hl] at hcc
    exact createLoop_calls_not_seen _ 0 [] [] [] (by simp) cc hcc

/-- C1 (witness): a concrete run against a store holding one unrelated event
issues the `Gym` creation call, whose IdentityKey is not among the listed
keys. -/
theorem c1_witness :
    (gymCall.summary ++ "|" ++ toISOString gymCall.startMs)
      ∉ ([(⟨some "Other", some 123⟩ : GEvent)]).map seenKey :=
  c1_dedup_only_against_listing
    ⟨some ⟨[⟨some "Other", some 123⟩], none⟩, fun _ => some "id"⟩
    345600000 (some "1") [gymItem] ⟨[⟨some "Other", some 123⟩], none⟩ rfl
    gymCall (by decide)

/-- C2: running the sync twice with the same items, the same `now`, the same
lookahead setting, and a store that starts empty and afterwards holds exactly
the events the first (successful) run created, the second run creates
nothing: every candidate's IdentityKey is byte-equal to a key built from a
stored event's title and start instant, so `createdCount = 0`, no insert call
is issued, and the store is unchanged. -/
theorem c2_cross_run_idempotence (create1 create2 : Nat → Option String)
    (now : Nat) (env : Option String) (items : List RoutineItem) (r1 : RunOk)
    (hok : (runOnStore create1 now env items []).1.result = .ok r1) :
    ∃ r2 : RunOk,
      (runOnStore create2 now env items
          (runOnStore create1 now env items []).2).1.result = .ok r2
      ∧ r2.created = 0
      ∧ (runOnStore create2 now env items
          (runOnStore create1 now env items []).2).1.calls = []
      ∧ (runOnStore create2 now env items
          (runOnStore create1 now env items []).2).2
          = (runOnStore create1 now env items []).2 := by
  rcases hh : computeHorizon now env with _ | h
  · rw [runOnStore_horizon_invalid hh] at hok
    simp at hok
  · have e1 : (runOnStore create1 now env items []).1
        = createLoop create1 [] (expandItems now (some h) items) 0 [] [] [] := by
      rw [runOnStore_eq hh]
      dsimp only
      rw [runRoutines_eq_createLoop hh rfl]
      rfl
    rw [e1] at hok
    obtain ⟨hsucc, hval⟩ := createLoop_nil_seen
      (expandItems now (some h) items) 0 [] [] [] r1 hok
    have e2 : (runOnStore create1 now env items []).2
        = ((expandItems now (some h) items).map callOf).map storedEvent := by
      rw [runOnStore_eq hh]
      dsimp only
      rw [runRoutines_eq_createLoop hh rfl]
      show ([] : List GEvent) ++ (createLoop create1 []
          (expandItems now (some h) items) 0 [] [] []).succeeded.map storedEvent
        = _
      rw [hsucc]
      rfl
    have hall : ∀ c ∈ expandItems now (some h) items,
        (∃ s, c.start = some s) ∧ (∃ e, c.«end» = some e)
        ∧ ((storeFilter ((runOnStore create1 now env items []).2) now h).map
            seenKey).contains (candidateKey c) = true := by
      intro c hc
      obtain ⟨⟨s, hs⟩, ⟨e, he⟩⟩ := hval c hc
      refine ⟨⟨s, hs⟩, ⟨e, he⟩, ?_⟩
      obtain ⟨s', h', hinj, hs', h1, h2⟩ := mem_expandItems_start hc
      have hhh : h' = h := (Option.some.inj hinj).symm
      have hss : s' = s := by rw [hs] at hs'; exact (Option.some.inj hs').symm
      rw [hss] at h1
      rw [hss, hhh] at h2
      have hmem : storedEvent (callOf c)
          ∈ (runOnStore create1 now env items []).2 := by
        rw [e2]
        exact List.mem_map_of_mem _ (List.mem_map_of_mem _ hc)
      have hms : (storedEvent (callOf c)).startMs = some s := by
        simp [storedEvent, callOf, hs]
      have hkeep : storedEvent (callOf c)
          ∈ storeFilter ((runOnStore create1 now env items []).2) now h :=
        mem_storeFilter hms h1 h2 hmem
      have hkey : seenKey (storedEvent (callOf c)) = candidateKey c := by
        simp [seenKey, storedEvent, callOf, candidateKey, jsShow, hs]
      have hmemkey : candidateKey c
          ∈ (storeFilter ((runOnStore create1 now env items []).2) now h).map
              seenKey := by
        rw [← hkey]
        exact List.mem_map_of_mem _ hkeep
      simpa using hmemkey
    have hskip := @createLoop_skip_all create2
      ((storeFilter ((runOnStore create1 now env items []).2) now h).map
        seenKey)
      (expandItems now (some h) items) 0 [] [] [] hall
    have e3 : (runOnStore create2 now env items
        ((runOnStore create1 now env items []).2)).1
        = createLoop create2
            ((storeFilter ((runOnStore create1 now env items []).2) now h).map
              seenKey)
            (expandItems now (some h) items) 0 [] [] [] := by
      rw [runOnStore_eq hh]
      dsimp only
      rw [runRoutines_eq_createLoop hh rfl]
    have e4 : (runOnStore create2 now env items
        ((runOnStore create1 now env items []).2)).2
        = (runOnStore create1 now env items []).2
          ++ ((runOnStore create2 now env items
            ((runOnStore create1 now env items []).2)).1).succeeded.map
              storedEvent := by
      rw [runOnStore_eq hh]
    refine ⟨⟨0, []⟩, ?_, rfl, ?_, ?_⟩
    · rw [e3, hskip]
      rfl
    · rw [e3, hskip]
    · rw [e4, e3, hskip]
      simp

/-- C2 (witness): concrete double run of the `Gym` routine starting from an
empty store: the second run returns zero creations, issues no call, and
leaves the store unchanged. -/
theorem c2_witness :
    ∃ r2 : RunOk,
      (runOnStore (fun _ => some "id2") 345600000 (some "1") [gymItem]
          (runOnStore (fun _ => some "id") 345600000 (some "1") [gymItem]
            []).2).1.result = .ok r2
      ∧ r2.created = 0
      ∧ (runOnStore (fun _ => some "id2") 345600000 (some "1") [gymItem]
          (runOnStore (fun _ => some "id") 345600000 (some "1") [gymItem]
            []).2).1.calls = []
      ∧ (runOnStore (fun _ => some "id2") 345600000 (some "1") [gymItem]
          (runOnStore (fun _ => some "id") 345600000 (some "1") [gymItem]
            []).2).2
          = (runOnStore (fun _ => some "id") 345600000 (some "1") [gymItem]
            []).2 :=
  c2_cross_run_idempotence (fun _ => some "id") (fun _ => some "id2")
    345600000 (some "1") [gymItem]
    ⟨1, [⟨"id", "Gym", toISOString 370800000⟩]⟩ rfl

/-- C3: every candidate either branch of the expansion emits has a valid
start instant lying in the closed horizon `[now, horizon]` (and the horizon
itself is then a valid instant); the check is one-sided: a concrete
single-weekday spec over a zero-length horizon produces a candidate whose end
instant lies strictly beyond the horizon end. -/
theorem c3_horizon_bound :
    (∀ (now : Nat) (env : Option String) (items : List RoutineItem)
        (c : Candidate),
        c ∈ expandItems now (computeHorizon now env) items →
        ∃ s h, computeHorizon now env = some h ∧ c.start = some s
          ∧ now ≤ s ∧ s ≤ h)
    ∧ (∃ c : Candidate,
        expandItems 345600000 (computeHorizon 345600000 (some "0")) [lateItem]
          = [c]
        ∧ computeHorizon 345600000 (some "0") = some 345600000
        ∧ c.«end» = some 349200000 ∧ 345600000 < 349200000) := by
  constructor
  · intro now env items c hc
    exact mem_expandItems_start hc
  · exact ⟨⟨"Late", none, none, some 345600000, some 349200000⟩,
      by decide, by decide, rfl, by decide⟩

/-- C3 (witness): the horizon bound instantiated at the `Gym` fixture: the
single candidate starts at 07:00 on the Monday, inside the one-day horizon. -/
theorem c3_witness :
    ∃ s h, computeHorizon 345600000 (some "1") = some h
      ∧ (⟨"Gym", none, none, some 370800000, some 374400000⟩ : Candidate).start
          = some s
      ∧ 345600000 ≤ s ∧ s ≤ h :=
  c3_horizon_bound.1 345600000 (some "1") [gymItem]
    ⟨"Gym", none, none, some 370800000, some 374400000⟩ (by decide)

/-- C4 (counterexample): a malformed (non-numeric) `ROUTINES_LOOKAHEAD_DAYS`
does not fall back to the 14-day default: `Number('abc')` is `NaN` and the
horizon becomes an Invalid Date, different from the horizon obtained when the
variable is missing. -/
theorem c4_counterexample :
    computeHorizon 0 (some "abc") = none
    ∧ computeHorizon 0 none = some (14 * msPerDay)
    ∧ computeHorizon 0 (some "abc") ≠ computeHorizon 0 none := by
  refine ⟨rfl, rfl, ?_⟩
  decide

/-- C4 (amended): only a missing `ROUTINES_LOOKAHEAD_DAYS` falls back to the
default `'14'` (the fallback is a destructuring default).  A non-numeric
setting yields an invalid horizon instead: no instant lies within it, and the
run aborts with an error when the listing request serializes the horizon,
issuing zero creation calls.  The horizon computation itself is total. -/
theorem c4_lookahead_fallback :
    (∀ now : Nat, computeHorizon now none = some (now + 14 * msPerDay))
    ∧ (∀ (now : Nat) (s : String), jsToNumber s = none →
        computeHorizon now (some s) = none)
    ∧ (∀ (now t : Nat) (s : String), jsToNumber s = none →
        inHorizon now (computeHorizon now (some s)) (some t) = false)
    ∧ (∀ (B : RunBehavior) (now : Nat) (s : String)
        (items : List RoutineItem), jsToNumber s = none →
        (runRoutines B now (some s) items).calls = []
        ∧ (runRoutines B now (some s) items).result = .error .isoError)
    ∧ jsToNumber "abc" = none := by
  refine ⟨fun now => rfl, ?_, ?_, ?_, by decide⟩
  · intro now s hbad
    simp [computeHorizon, effectiveLookahead, hbad]
  · intro now t s hbad
    have h2 : computeHorizon now (some s) = none := by
      simp [computeHorizon, effectiveLookahead, hbad]
    rw [h2]
    simp [inHorizon]
  · intro B now s items hbad
    have h2 : computeHorizon now (some s) = none := by
      simp [computeHorizon, effectiveLookahead, hbad]
    rw [runRoutines_horizon_invalid h2]
    exact ⟨rfl, rfl⟩

/-- C5 (counterexample): a `SingleWeekdayDuration` spec omitting both
`timeClock` and `durationMinutes` produces no instances at all — the branch
guard `item.weekday && (item.time || item.durationMin)` is falsy — although
the 7-day horizon, starting on a Monday, does contain a matching Monday (the
same spec with `timeClock` present produces one instance). -/
theorem c5_counterexample :
    expandItems 345600000 (computeHorizon 345600000 (some "7")) [bothOmitted]
      = []
    ∧ (expandItems 345600000 (computeHorizon 345600000 (some "7"))
        [{ bothOmitted with time := some "17:00" }]).length = 1 := by
  exact ⟨by decide, by decide⟩

/-- C5 (amended): the defaults apply only when the branch guard passes (the
empty string and `0` are falsy): with `timeClock` absent, instances start at
17:00 local and end after `durationMinutes` (default 60) minutes; with
`durationMinutes` absent the duration is exactly 60 minutes; with
`durationMinutes` present (including `0`, legal when `timeClock` makes the
guard pass) the duration is exactly that value; a spec omitting both fields,
or with `timeClock` absent and `durationMinutes = 0`, produces no instances. -/
theorem c5_single_weekday_defaults :
    (∀ (now : Nat) (horizon : Option Nat) (item : RoutineItem) (c : Candidate),
        item.days = none → item.time = none →
        c ∈ expandItem now horizon item →
        ∃ s, c.start = some s ∧ s % msPerDay = 17 * 3600000
          ∧ c.«end» = some (s + item.durationMin.getD 60 * 60000))
    ∧ (∀ (now : Nat) (horizon : Option Nat) (item : RoutineItem)
        (c : Candidate), item.days = none → item.durationMin = none →
        c ∈ expandItem now horizon item →
        ∃ s, c.start = some s ∧ c.«end» = some (s + 60 * 60000))
    ∧ (∀ (now : Nat) (horizon : Option Nat) (item : RoutineItem)
        (c : Candidate) (dm : Nat), item.days = none →
        item.durationMin = some dm → c ∈ expandItem now horizon item →
        ∃ s, c.start = some s ∧ c.«end» = some (s + dm * 60000))
    ∧ (∀ (now : Nat) (horizon : Option Nat) (item : RoutineItem),
        item.days = none → item.time = none → item.durationMin = none →
        expandItem now horizon item = [])
    ∧ (∀ (now : Nat) (horizon : Option Nat) (item : RoutineItem),
        item.days = none → item.time = none → item.durationMin = some 0 →
        expandItem now horizon item = []) := by
  refine ⟨?_, ?_, ?_, ?_, ?_⟩
  · intro now horizon item c hd htime hc
    obtain ⟨d, hh, mm, hclock, hstart, hend⟩ := mem_expandItem_weekday hd hc
    rw [htime] at hclock
    rw [show splitClock (none : Option String) "17:00" = (some 17, some 0)
      from rfl] at hclock
    obtain ⟨rfl, rfl⟩ : 17 = hh ∧ 0 = mm := by simpa using hclock
    refine ⟨dayStart d + 17 * 3600000 + 0 * 60000, hstart, ?_, hend⟩
    show (dayStart d + 17 * 3600000 + 0 * 60000) % msPerDay = 17 * 3600000
    unfold dayStart msPerDay
    omega
  · intro now horizon item c hd hdur hc
    obtain ⟨d, hh, mm, hclock, hstart, hend⟩ := mem_expandItem_weekday hd hc
    rw [hdur] at hend
    exact ⟨_, hstart, by simpa using hend⟩
  · intro now horizon item c dm hd hdur hc
    obtain ⟨d, hh, mm, hclock, hstart, hend⟩ := mem_expandItem_weekday hd hc
    rw [hdur] at hend
    exact ⟨_, hstart, by simpa using hend⟩
  · intro now horizon item hd htime hdur
    exact expandItem_eq_nil hd
      (by simp [jsTruthyStr, jsTruthyNum, htime, hdur])
  · intro now horizon item hd htime hdur
    exact expandItem_eq_nil hd
      (by simp [jsTruthyStr, jsTruthyNum, htime, hdur])

/-- C6 (counterexample): a spec whose `end` clock is not numeric still
produces a candidate instance (the one-sided horizon check only inspects
`start`), and the run then aborts when `toISOString` is called on the invalid
end date — so expansion is not "zero instances, no escaping error" for every
unparseable clock. -/
theorem c6_counterexample :
    (expandItems 345600000 (computeHorizon 345600000 (some "1"))
      [badEndItem]).length = 1
    ∧ (runRoutines ⟨some ⟨[], none⟩, fun _ => some "id"⟩ 345600000 (some "1")
        [badEndItem]).result = .error .isoError := by
  exact ⟨by decide, rfl⟩

/-- C6 (amended): expansion itself is total and per-spec tolerant for the
start-determining inputs: an empty weekday list, an absent `weekday`, or an
unparseable start-determining clock (`item.start` in the days variant,
`item.time` in the duration variant) yields zero instances for that spec.
An unparseable `end` clock in the days variant, however, yields candidates
with an invalid end instant — the error surfaces later, at serialization
time (see the counterexample). -/
theorem c6_expansion_tolerance :
    (∀ (now : Nat) (horizon : Option Nat) (item : RoutineItem),
        item.days = some ([] : List String) →
        expandItem now horizon item = [])
    ∧ (∀ (now : Nat) (horizon : Option Nat) (item : RoutineItem),
        item.days = none → item.weekday = none →
        expandItem now horizon item = [])
    ∧ (∀ (now : Nat) (horizon : Option Nat) (item : RoutineItem)
        (l : List String), item.days = some l →
        ((splitClock item.start "07:00").1 = none
          ∨ (splitClock item.start "07:00").2 = none) →
        expandItem now horizon item = [])
    ∧ (∀ (now : Nat) (horizon : Option Nat) (item : RoutineItem),
        item.days = none →
        ((splitClock item.time "17:00").1 = none
          ∨ (splitClock item.time "17:00").2 = none) →
        expandItem now horizon item = [])
    ∧ (splitClock (some "xx") "07:00").1 = none := by
  refine ⟨?_, ?_, ?_, ?_, by decide⟩
  · intro now horizon item hd
    rw [expandItem_eq_days (by rw [hd]; rfl)]
    exact List.filterMap_eq_nil_iff.mpr fun d _ => daysBranchDay_empty_days hd
  · intro now horizon item hd hw
    exact expandItem_eq_nil hd (by simp [jsTruthyStr, hw])
  · intro now horizon item l hd hbad
    rw [expandItem_eq_days (by rw [hd]; rfl)]
    exact List.filterMap_eq_nil_iff.mpr fun d _ =>
      daysBranchDay_clock_invalid hbad
  · intro now horizon item hd hbad
    rcases hg : (jsTruthyStr item.weekday
        && (jsTruthyStr item.time || jsTruthyNum item.durationMin))
      with _ | _
    · exact expandItem_eq_nil hd hg
    · rw [expandItem_eq_weekday hd hg]
      exact List.filterMap_eq_nil_iff.mpr fun d _ =>
        weekdayBranchDay_clock_invalid hbad

/-- C7 (counterexample): a truncated listing (a reply carrying a
`nextPageToken`) does not abort the run: the handler never reads the token,
processes the first page as the complete baseline, and still issues creation
calls. -/
theorem c7_counterexample :
    (runRoutines ⟨some ⟨[], some "nextPageToken"⟩, fun _ => some "id"⟩
        345600000 (some "1") [gymItem]).calls.length = 1
    ∧ (runRoutines ⟨some ⟨[], some "nextPageToken"⟩, fun _ => some "id"⟩
        345600000 (some "1") [gymItem]).result
      = .ok ⟨1, [⟨"id", "Gym", toISOString 370800000⟩]⟩ := by
  exact ⟨by decide, rfl⟩

/-- C7 (amended): a failed existing-event listing aborts the run with an
error before any creation call is issued; pagination truncation, however, is
not detected — the continuation token of the listing reply is ignored and the
run proceeds on the first page alone (see the counterexample). -/
theorem c7_listing_failure :
    (∀ (B : RunBehavior) (now h : Nat) (env : Option String)
        (items : List RoutineItem), computeHorizon now env = some h →
        B.list = none →
        (runRoutines B now env items).calls = []
        ∧ (runRoutines B now env items).succeeded = []
        ∧ (runRoutines B now env items).result = .error .listError)
    ∧ (∀ (create : Nat → Option String) (now : Nat) (env : Option String)
        (items : List RoutineItem) (resp : ListResponse),
        runRoutines ⟨some resp, create⟩ now env items
          = runRoutines ⟨some ⟨resp.items, none⟩, create⟩ now env items) := by
  constructor
  · intro B now h env items hh hl
    rw [runRoutines_list_failed hh hl]
    exact ⟨rfl, rfl, rfl⟩
  · intro create now env items resp
    rcases hcz : computeHorizon now env with _ | h
    · rw [runRoutines_horizon_invalid hcz, runRoutines_horizon_invalid hcz]
    · rw [runRoutines_eq_createLoop hcz rfl, runRoutines_eq_createLoop hcz rfl]

/-- C8: creation order is deterministic: `toCreate` is the concatenation of
the per-record expansions in input order; within one record the candidate
start instants strictly ascend along the day loop; and on a successful run
the result's `items` list mirrors, in order, exactly the issued creation
calls (title and serialized start). -/
theorem c8_deterministic_order :
    (∀ (now : Nat) (horizon : Option Nat) (items : List RoutineItem),
        expandItems now horizon items
          = items.flatMap (expandItem now horizon))
    ∧ (∀ (now : Nat) (horizon : Option Nat) (item : RoutineItem),
        List.Pairwise (fun a b : Candidate => a.start.getD 0 < b.start.getD 0)
          (expandItem now horizon item))
    ∧ (∀ (B : RunBehavior) (now : Nat) (env : Option String)
        (items : List RoutineItem) (r : RunOk),
        (runRoutines B now env items).result = .ok r →
        r.items.map (fun it => (it.title, it.start))
          = (runRoutines B now env items).calls.map
              (fun cc => (cc.summary, toISOString cc.startMs))) := by
  refine ⟨expandItems_eq_flatMap, expandItem_pairwise, ?_⟩
  intro B now env items r h
  rcases hh : computeHorizon now env with _ | hz
  · rw [runRoutines_horizon_invalid hh] at h
    simp at h
  · rcases hl : B.list with _ | resp
    · rw [runRoutines_list_failed hh hl] at h
      simp at h
    · rw [runRoutines_eq_createLoop hh hl] at h ⊢
      exact createLoop_ok_align _ 0 [] [] [] r h rfl

/-- C9: when an individual creation call fails, the run stops there: the
calls issued are the successful ones followed by exactly the one failing
call (no retry, nothing after it), the store keeps every event created
before the failure (no rollback), the caller gets the single creation
error, and no candidate is attempted twice (the number of calls is bounded
by the number of candidates). -/
theorem c9_creation_failure (create : Nat → Option String) (now : Nat)
    (env : Option String) (items : List RoutineItem) (store : List GEvent)
    (herr : (runOnStore create now env items store).1.result
      = .error .createError) :
    (∃ cc, (runOnStore create now env items store).1.calls
        = (runOnStore create now env items store).1.succeeded ++ [cc])
    ∧ (runOnStore create now env items store).2
        = store ++ (runOnStore create now env items store).1.succeeded.map
            storedEvent
    ∧ (runOnStore create now env items store).1.calls.length
        ≤ (expandItems now (computeHorizon now env) items).length := by
  rcases hh : computeHorizon now env with _ | h
  · rw [runOnStore_horizon_invalid hh] at herr
    simp at herr
  · have e1 : (runOnStore create now env items store).1
        = createLoop create ((storeFilter store now h).map seenKey)
            (expandItems now (some h) items) 0 [] [] [] := by
      rw [runOnStore_eq hh]
      dsimp only
      rw [runRoutines_eq_createLoop hh rfl]
    have e2 : (runOnStore create now env items store).2
        = store ++ (runOnStore create now env items store).1.succeeded.map
            storedEvent := by
      rw [runOnStore_eq hh]
    rw [e1] at herr
    refine ⟨?_, e2, ?_⟩
    · rw [e1]
      exact createLoop_error_split _ 0 [] [] herr
    · rw [e1]
      simpa using @createLoop_calls_len create
        ((storeFilter store now h).map seenKey)
        (expandItems now (some h) items) 0 [] [] []

/-- C9 (witness): a run whose very first creation call fails: one call was
issued, no event was created, the store is unchanged. -/
theorem c9_witness :
    (∃ cc, (runOnStore (fun _ => none) 345600000 (some "1") [gymItem] []).1.calls
        = (runOnStore (fun _ => none) 345600000 (some "1") [gymItem]
            []).1.succeeded ++ [cc])
    ∧ (runOnStore (fun _ => none) 345600000 (some "1") [gymItem] []).2
        = [] ++ (runOnStore (fun _ => none) 345600000 (some "1") [gymItem]
            []).1.succeeded.map storedEvent
    ∧ (runOnStore (fun _ => none) 345600000 (some "1") [gymItem]
        []).1.calls.length
        ≤ (expandItems 345600000 (computeHorizon 345600000 (some "1"))
            [gymItem]).length :=
  c9_creation_failure (fun _ => none) 345600000 (some "1") [gymItem] [] rfl

/-- C10: a record carrying both `days` and `weekday`/`time`/`durationMin`
fields expands exactly as if the single-weekday fields were absent — only
the multi-weekday branch runs; concretely, a record whose `days` list never
matches the horizon produces nothing even though its `weekday`/`time` fields
alone would have produced a candidate. -/
theorem c10_days_branch_precedence :
    (∀ (now : Nat) (horizon : Option Nat) (item : RoutineItem)
        (l : List String), item.days = some l →
        expandItem now horizon item
          = expandItem now horizon
              { item with weekday := none, time := none, durationMin := none })
    ∧ expandItem 345600000 (computeHorizon 345600000 (some "1")) dualItem = []
    ∧ expandItem 345600000 (computeHorizon 345600000 (some "1"))
        { dualItem with days := none } ≠ [] := by
  refine ⟨?_, by decide, by decide⟩
  intro now horizon item l hd
  cases item
  subst hd
  rfl

end BtyCalendar
